import Mathlib

/-!
multicloser: a registry of io.Closer values closed together

A shallow embedding of `multicloser.go` (package `multicloser`) and of the two
standard-library functions it relies on, `errors.Join` and `errors.Is`.

* The mutex is not part of the embedding: every operation holds it for its whole
  body, so each operation is one atomic step on the state.
* `for c := range m.closers` visits every key once in an order chosen by the
  runtime; that order is an explicit argument of `Close`, constrained by
  `IsRangeOrder`.
* What each registered `c.Close()` returns is an explicit argument of `Close`.
* A runtime panic is the result `none`.
* `Register` and `Unregister` take a handle of the data model (nil or a closer with a
  comparable identity); `RegisterAny` and `UnregisterAny` take every value of type
  `io.Closer`, a closer of unhashable dynamic type included.
-/

namespace multicloser

/-! ## Go error values -/

/-- A Go `error` value that is not nil. `sentinel` is what `errors.New` returns,
`wrapped` is what `fmt.Errorf` gives for one `%w` (it has an `Unwrap() error` method) and
`joined` is the `*joinError` that `errors.Join` returns, with its `errs` slice; for these
three `addr` is the identity of the pointer behind the interface value. `custom` is a
value of a user-defined error type: `id` is its identity, `comparable` tells whether its
dynamic type is comparable (a slice or map type is not), and `inner` is what its
`Unwrap() []error` returns (empty when it unwraps nothing). The nil `error` is
`none : Option GoError`. -/
inductive GoError where
  | sentinel (addr : Nat) : GoError
  | wrapped (addr : Nat) (inner : GoError) : GoError
  | joined (addr : Nat) (errs : List GoError) : GoError
  | custom (id : Nat) (comparable : Bool) (inner : List GoError) : GoError

/-- The test `reflectlite.TypeOf(target).Comparable()` of `errors.Is`: pointers are
comparable, a user-defined error type is comparable or not. -/
def GoError.isComparable : GoError → Bool
  | .sentinel _ => true
  | .wrapped _ _ => true
  | .joined _ _ => true
  | .custom _ c _ => c

mutual
/-- The comparison `err == target` of two non-nil error values, for a target of
comparable type: the same dynamic type and the same value. -/
def GoError.beq : GoError → GoError → Bool
  | .sentinel a, .sentinel b => a == b
  | .wrapped a x, .wrapped b y => a == b && GoError.beq x y
  | .joined a xs, .joined b ys => a == b && GoError.beqList xs ys
  | .custom i c xs, .custom j d ys => i == j && c == d && GoError.beqList xs ys
  | _, _ => false
/-- Pointwise comparison of two error slices (used by `GoError.beq`). -/
def GoError.beqList : List GoError → List GoError → Bool
  | [], [] => true
  | x :: xs, y :: ys => GoError.beq x y && GoError.beqList xs ys
  | _, _ => false
end

mutual
/-- The loop of `errors.is` for a non-nil `err` and a non-nil `target`: `err == target`
when the target's type is comparable, else the `Is(error) bool` method of `err` when it
has one, else follow `Unwrap() error` or try every element of `Unwrap() []error`.
`isMethod i t` is what the `Is` method of the user-defined error with identity `i`
returns for the target `t`, and `false` when that error has no `Is` method; the three
standard-library error types have none. -/
def errorsIs (isMethod : Nat → GoError → Bool) : GoError → GoError → Bool
  | .sentinel a, t => (t.isComparable && GoError.beq (.sentinel a) t)
  | .wrapped a x, t =>
    (t.isComparable && GoError.beq (.wrapped a x) t) || errorsIs isMethod x t
  | .joined a xs, t =>
    (t.isComparable && GoError.beq (.joined a xs) t) || errorsIsAny isMethod xs t
  | .custom i c xs, t =>
    (t.isComparable && GoError.beq (.custom i c xs) t) || isMethod i t
      || errorsIsAny isMethod xs t
/-- The `for _, err := range x.Unwrap()` loop of `errors.is`. -/
def errorsIsAny (isMethod : Nat → GoError → Bool) : List GoError → GoError → Bool
  | [], _ => false
  | x :: xs, t => errorsIs isMethod x t || errorsIsAny isMethod xs t
end

/-- The function `errors.Is(err, target)` on possibly nil errors: when either is nil the
answer is `err == target`. -/
def errorsIsOpt (isMethod : Nat → GoError → Bool) : Option GoError → Option GoError → Bool
  | some e, some t => errorsIs isMethod e t
  | none, none => true
  | _, _ => false

/-- No user-defined error has an `Is` method. -/
def noIsMethod : Nat → GoError → Bool := fun _ _ => false

/-- The function `errors.Join(errs...)`: nil when every argument is nil, otherwise a newly
allocated `*joinError` (at address `fresh`) holding the non-nil arguments in order. -/
def errorsJoin (fresh : Nat) (errs : List (Option GoError)) : Option GoError :=
  let kept := errs.filterMap id
  if kept.length = 0 then none else some (GoError.joined fresh kept)

/-- The package variable `ErrNoCloserRegistered = errors.New(...)`; its pointer is
address 0. -/
def ErrNoCloserRegistered : GoError := GoError.sentinel 0

/-! ## The registry -/

/-- A handle of the data model: the nil `io.Closer` interface value, or a closer with a
comparable identity, which can be a map key. -/
inductive Closer where
  | nil : Closer
  | ref (id : Nat) : Closer
  deriving DecidableEq, Repr

/-- The struct `MultiCloser` without its mutex. `closers` is the map
`map[io.Closer]struct{}`: `none` is the nil map of a zero-valued struct, `some s` an
allocated map with key set `s`. -/
structure MultiCloser where
  closers : Option (Finset Closer)
  deriving DecidableEq

/-- The key set of the map (empty for the nil map). -/
def keys (m : MultiCloser) : Finset Closer :=
  match m.closers with
  | none => ∅
  | some s => s

/-- Constructor `New`: an allocated, empty map. -/
def New : MultiCloser := { closers := some ∅ }

/-- Method `Register` for a handle of the data model: returns at once for a nil closer,
otherwise stores the key. Assigning into a nil map panics. -/
def Register (m : MultiCloser) (c : Closer) : Option MultiCloser :=
  if c = Closer.nil then some m
  else
    match m.closers with
    | none => none
    | some s => some { closers := some (insert c s) }

/-- Method `Unregister` for a handle of the data model: `delete(m.closers, c)`, which
does nothing on a nil map or for an absent key. -/
def Unregister (m : MultiCloser) (c : Closer) : MultiCloser :=
  match m.closers with
  | none => m
  | some s => { closers := some (s.erase c) }

/-- Method `Len`: `len(m.closers)`, which is 0 for a nil map. -/
def Len (m : MultiCloser) : Nat :=
  match m.closers with
  | none => 0
  | some s => s.card

/-- What one call of `Close` leaves behind: the registry afterwards, the returned error
(`none` is nil) and the closers whose `Close` was invoked, in order of invocation. -/
structure CloseResult where
  m : MultiCloser
  err : Option GoError
  calls : List Closer

/-- The loop `for c := range m.closers` of `Close`, over the keys still to visit.
`errs` is the slice collected so far and `calls` the invocations made so far. Invoking
`Close` on a nil interface value panics. -/
def closeLoop (result : Closer → Option GoError) :
    List Closer → List GoError → List Closer → Option (List GoError × List Closer)
  | [], errs, calls => some (errs, calls)
  | Closer.nil :: _, _, _ => none
  | Closer.ref k :: rest, errs, calls =>
    match result (Closer.ref k) with
    | some err => closeLoop result rest (errs ++ [err]) (calls ++ [Closer.ref k])
    | none => closeLoop result rest errs (calls ++ [Closer.ref k])

/-- Method `Close`. `order` is the order in which the range loop visits the keys,
`result c` is what `c.Close()` returns and `fresh` is the address `errors.Join`
allocates at. -/
def Close (m : MultiCloser) (order : List Closer) (result : Closer → Option GoError)
    (fresh : Nat) : Option CloseResult :=
  if Len m = 0 then
    some { m := m, err := some ErrNoCloserRegistered, calls := [] }
  else
    match closeLoop result order [] [] with
    | none => none
    | some (errs, calls) =>
      let reset : MultiCloser := { closers := some ∅ }
      if errs.length > 0 then
        some { m := reset, err := errorsJoin fresh (errs.map some), calls := calls }
      else
        some { m := reset, err := none, calls := calls }

/-- A visiting order of the range loop: every key of the map exactly once. -/
def IsRangeOrder (m : MultiCloser) (order : List Closer) : Prop :=
  order.Nodup ∧ order.toFinset = keys m

instance (m : MultiCloser) (order : List Closer) : Decidable (IsRangeOrder m order) := by
  unfold IsRangeOrder
  infer_instance

/-- The registries a program can hold after `New()`: the fields are unexported, so a
state is reached only through `Register`, `Unregister` and `Close`. -/
inductive Reachable : MultiCloser → Prop
  | new : Reachable New
  | register (m m1 : MultiCloser) (c : Closer) :
      Reachable m → Register m c = some m1 → Reachable m1
  | unregister (m : MultiCloser) (c : Closer) : Reachable m → Reachable (Unregister m c)
  | close (m : MultiCloser) (order : List Closer) (result : Closer → Option GoError)
      (fresh : Nat) (r : CloseResult) :
      Reachable m → IsRangeOrder m order → Close m order result fresh = some r →
      Reachable r.m

/-- A run of `Register` calls, one per element of the list, stopping at a panic. -/
def registerAll (m : MultiCloser) : List Closer → Option MultiCloser
  | [] => some m
  | c :: cs => (Register m c).bind (fun m1 => registerAll m1 cs)

/-- The invariant of reachable registries: the map is allocated and nil is not a key. -/
def WellFormed (m : MultiCloser) : Prop :=
  ∃ s, m.closers = some s ∧ Closer.nil ∉ s

/-- A sample registry holding closers 1 and 2. -/
def sampleTwo : MultiCloser := { closers := some {Closer.ref 1, Closer.ref 2} }

/-- Sample close results: closer 1 fails with the error at address 7, all others
succeed. -/
def sampleResult : Closer → Option GoError
  | Closer.ref 1 => some (GoError.sentinel 7)
  | _ => none

/-- A sample registry holding closer 1 only. -/
def sampleOne : MultiCloser := { closers := some {Closer.ref 1} }

/-- Sample close results of a handle that is itself a registry of two failing closers:
closer 1 returns the join (at address 9) of the errors at addresses 1 and 2. -/
def nestedResult : Closer → Option GoError
  | Closer.ref 1 => some (GoError.joined 9 [GoError.sentinel 1, GoError.sentinel 2])
  | _ => none

/-- A call that changes the registered set without closing anything. -/
inductive Op where
  | register (c : Closer) : Op
  | unregister (c : Closer) : Op
  deriving DecidableEq

/-- One `Register` or `Unregister` call. -/
def applyOp (m : MultiCloser) : Op → Option MultiCloser
  | Op.register c => Register m c
  | Op.unregister c => some (Unregister m c)

/-- A run of `Register` and `Unregister` calls, stopping at a panic. -/
def applyOps (m : MultiCloser) : List Op → Option MultiCloser
  | [] => some m
  | op :: ops => (applyOp m op).bind (fun m1 => applyOps m1 ops)

/-- The handles of a call sequence that are not nil. -/
def nonNil (cs : List Closer) : List Closer :=
  cs.filter (fun c => decide (c ≠ Closer.nil))

/-- The zero value of the struct `MultiCloser`: its map field is the nil map. -/
def zeroValue : MultiCloser := { closers := none }

/-- The arguments of one `Close` call: the visiting order of its range loop, what each
handle returns, and the address `errors.Join` allocates at. -/
structure CloseEnv where
  order : List Closer
  result : Closer → Option GoError
  fresh : Nat

/-- A run of `Close` calls one after another with nothing in between, one per element of
the list, stopping at a panic; the outcomes in call order. -/
def closeRepeat (m : MultiCloser) : List CloseEnv → Option (List CloseResult)
  | [] => some []
  | e :: rest =>
    match Close m e.order e.result e.fresh with
    | none => none
    | some r => (closeRepeat r.m rest).map (fun rs => r :: rs)

/-- Sample close results of a handle that is itself an empty registry: closer 1 returns
`ErrNoCloserRegistered`. -/
def emptyNestedResult : Closer → Option GoError
  | Closer.ref 1 => some ErrNoCloserRegistered
  | _ => none

/-- Sample close results in which closers 1 and 2 both fail, with the errors at
addresses 7 and 8. -/
def bothFailResult : Closer → Option GoError
  | Closer.ref 1 => some (GoError.sentinel 7)
  | Closer.ref 2 => some (GoError.sentinel 8)
  | _ => none

/-- Sample close results in which closer 1 fails with a value of a non-comparable error
type (identity 3) that has no `Unwrap` method. -/
def uncomparableResult : Closer → Option GoError
  | Closer.ref 1 => some (GoError.custom 3 false [])
  | _ => none

/-- A value of the interface type `io.Closer` as the signatures of `Register` and
`Unregister` admit it: a handle of the data model, or a non-nil closer whose dynamic
type is unhashable (a slice, map or function type with a `Close` method), which Go
refuses as a map key at run time. -/
inductive CloserValue where
  | handle (c : Closer) : CloserValue
  | unhashable (id : Nat) : CloserValue
  deriving DecidableEq

/-- Method `Register` over every value of type `io.Closer`. A closer of unhashable
dynamic type is not nil, so the body reaches `m.closers[c] = struct{}{}`, which panics:
into a nil map as for any key, into an allocated map when the key is hashed. -/
def RegisterAny (m : MultiCloser) : CloserValue → Option MultiCloser
  | CloserValue.handle c => Register m c
  | CloserValue.unhashable _ => none

/-- Method `Unregister` over every value of type `io.Closer`. For a closer of unhashable
dynamic type `delete(m.closers, c)` panics, on a nil or empty map too. -/
def UnregisterAny (m : MultiCloser) : CloserValue → Option MultiCloser
  | CloserValue.handle c => some (Unregister m c)
  | CloserValue.unhashable _ => none

/-! ## Error values: equality and matching -/

mutual
theorem GoError.beq_iff : ∀ (a b : GoError), GoError.beq a b = true ↔ a = b
  | .sentinel a, .sentinel b => by simp [GoError.beq]
  | .sentinel _, .wrapped _ _ => by simp [GoError.beq]
  | .sentinel _, .joined _ _ => by simp [GoError.beq]
  | .sentinel _, .custom _ _ _ => by simp [GoError.beq]
  | .wrapped _ _, .sentinel _ => by simp [GoError.beq]
  | .wrapped a x, .wrapped b y => by simp [GoError.beq, GoError.beq_iff x y]
  | .wrapped _ _, .joined _ _ => by simp [GoError.beq]
  | .wrapped _ _, .custom _ _ _ => by simp [GoError.beq]
  | .joined _ _, .sentinel _ => by simp [GoError.beq]
  | .joined _ _, .wrapped _ _ => by simp [GoError.beq]
  | .joined a xs, .joined b ys => by simp [GoError.beq, GoError.beqList_iff xs ys]
  | .joined _ _, .custom _ _ _ => by simp [GoError.beq]
  | .custom _ _ _, .sentinel _ => by simp [GoError.beq]
  | .custom _ _ _, .wrapped _ _ => by simp [GoError.beq]
  | .custom _ _ _, .joined _ _ => by simp [GoError.beq]
  | .custom i c xs, .custom j d ys => by
    simp [GoError.beq, GoError.beqList_iff xs ys, and_assoc]
theorem GoError.beqList_iff :
    ∀ (xs ys : List GoError), GoError.beqList xs ys = true ↔ xs = ys
  | [], [] => by simp [GoError.beqList]
  | [], _ :: _ => by simp [GoError.beqList]
  | _ :: _, [] => by simp [GoError.beqList]
  | x :: xs, y :: ys => by
    simp [GoError.beqList, GoError.beq_iff x y, GoError.beqList_iff xs ys]
end

instance : DecidableEq GoError := fun a b =>
  decidable_of_iff (GoError.beq a b = true) (GoError.beq_iff a b)

theorem errorsIs_self (isMethod : Nat → GoError → Bool) (e : GoError)
    (hc : e.isComparable = true) : errorsIs isMethod e e = true := by
  have hb : GoError.beq e e = true := (GoError.beq_iff e e).mpr rfl
  cases e <;> simp [errorsIs, hb, hc]

theorem errorsIsAny_iff (isMethod : Nat → GoError → Bool) (l : List GoError)
    (t : GoError) :
    errorsIsAny isMethod l t = true ↔ ∃ f ∈ l, errorsIs isMethod f t = true := by
  induction l with
  | nil => simp [errorsIsAny]
  | cons x xs ih => simp [errorsIsAny, ih]

theorem errorsIs_joined (isMethod : Nat → GoError → Bool) (a : Nat) (l : List GoError)
    (t : GoError) :
    errorsIs isMethod (GoError.joined a l) t = true ↔
      (t = GoError.joined a l ∨ ∃ f ∈ l, errorsIs isMethod f t = true) := by
  simp only [errorsIs, Bool.or_eq_true, Bool.and_eq_true, GoError.beq_iff, errorsIsAny_iff]
  constructor
  · rintro (h | h)
    · exact Or.inl h.2.symm
    · exact Or.inr h
  · rintro (h | h)
    · subst h
      exact Or.inl ⟨rfl, rfl⟩
    · exact Or.inr h

theorem errorsJoin_map_some (fresh : Nat) (l : List GoError) :
    errorsJoin fresh (l.map some) = if l = [] then none else some (GoError.joined fresh l) := by
  have hk : (l.map some).filterMap id = l := by
    induction l with
    | nil => rfl
    | cons x xs ih => simp [List.filterMap_cons, ih]
  unfold errorsJoin
  simp only [hk]
  cases l <;> simp

/-! ## The close loop -/

theorem closeLoop_eq (result : Closer → Option GoError) (order : List Closer) :
    ∀ (errs : List GoError) (calls : List Closer), Closer.nil ∉ order →
      closeLoop result order errs calls
        = some (errs ++ order.filterMap result, calls ++ order) := by
  induction order with
  | nil => intro errs calls _; simp [closeLoop]
  | cons c rest ih =>
    intro errs calls hnil
    have hc : c ≠ Closer.nil := fun h => hnil (by simp [h])
    have hrest : Closer.nil ∉ rest := fun h => hnil (List.mem_cons_of_mem _ h)
    cases c with
    | nil => exact absurd rfl hc
    | ref k =>
      cases hres : result (Closer.ref k) with
      | none => simp [closeLoop, hres, ih _ _ hrest, List.filterMap_cons]
      | some err => simp [closeLoop, hres, ih _ _ hrest, List.filterMap_cons]

/-! ## The reachable registries -/

theorem wellFormed_New : WellFormed New := ⟨∅, rfl, by simp⟩

theorem wellFormed_Register (m m1 : MultiCloser) (c : Closer) (hw : WellFormed m)
    (h : Register m c = some m1) : WellFormed m1 := by
  obtain ⟨s, hs, hnil⟩ := hw
  unfold Register at h
  by_cases hc : c = Closer.nil
  · simp [hc] at h
    subst h
    exact ⟨s, hs, hnil⟩
  · simp [hc, hs] at h
    subst h
    refine ⟨insert c s, rfl, ?_⟩
    simp only [Finset.mem_insert, not_or]
    exact ⟨fun h => hc h.symm, hnil⟩

theorem wellFormed_Unregister (m : MultiCloser) (c : Closer) (hw : WellFormed m) :
    WellFormed (Unregister m c) := by
  obtain ⟨s, hs, hnil⟩ := hw
  refine ⟨s.erase c, by simp [Unregister, hs], ?_⟩
  intro h
  exact hnil (Finset.mem_of_mem_erase h)

theorem Register_isSome (m : MultiCloser) (c : Closer) (hw : WellFormed m) :
    ∃ m1, Register m c = some m1 ∧ WellFormed m1 ∧ keys m1 = if c = Closer.nil then keys m
      else insert c (keys m) := by
  obtain ⟨s, hs, hnil⟩ := hw
  by_cases hc : c = Closer.nil
  · exact ⟨m, by simp [Register, hc], ⟨s, hs, hnil⟩, by simp [hc]⟩
  · refine ⟨{ closers := some (insert c s) }, by simp [Register, hc, hs], ?_, ?_⟩
    · refine ⟨insert c s, rfl, ?_⟩
      simp only [Finset.mem_insert, not_or]
      exact ⟨fun h => hc h.symm, hnil⟩
    · simp [keys, hs, hc]

theorem Len_eq_card_keys (m : MultiCloser) : Len m = (keys m).card := by
  unfold Len keys
  cases m.closers <;> simp

theorem rangeOrder_nil_not_mem (m : MultiCloser) (order : List Closer) (hw : WellFormed m)
    (ho : IsRangeOrder m order) : Closer.nil ∉ order := by
  obtain ⟨s, hs, hnil⟩ := hw
  intro h
  have h2 : Closer.nil ∈ order.toFinset := List.mem_toFinset.mpr h
  rw [ho.2] at h2
  simp [keys, hs] at h2
  exact hnil h2

theorem rangeOrder_mem (m : MultiCloser) (order : List Closer) (ho : IsRangeOrder m order)
    (c : Closer) : c ∈ order ↔ c ∈ keys m := by
  rw [← ho.2, List.mem_toFinset]

theorem rangeOrder_count (m : MultiCloser) (order : List Closer) (ho : IsRangeOrder m order)
    (c : Closer) : order.count c = if c ∈ keys m then 1 else 0 := by
  by_cases hc : c ∈ keys m
  · simp only [hc, if_true]
    exact List.count_eq_one_of_mem ho.1 ((rangeOrder_mem m order ho c).mpr hc)
  · simp only [hc, if_false]
    exact List.count_eq_zero_of_not_mem (fun h => hc ((rangeOrder_mem m order ho c).mp h))

/-- On a well-formed registry, `Close` with a visiting order of the keys returns: either
the empty-set error without touching anything, or the reset registry, the join of the
failures in visiting order and one invocation per visited key. -/
theorem Close_wellFormed (m : MultiCloser) (order : List Closer)
    (result : Closer → Option GoError) (fresh : Nat) (hw : WellFormed m)
    (ho : IsRangeOrder m order) :
    Close m order result fresh =
      if Len m = 0 then some { m := m, err := some ErrNoCloserRegistered, calls := [] }
      else some { m := { closers := some ∅ },
                  err := errorsJoin fresh ((order.filterMap result).map some),
                  calls := order } := by
  unfold Close
  by_cases hl : Len m = 0
  · simp [hl]
  · simp only [hl, if_false]
    rw [closeLoop_eq result order [] [] (rangeOrder_nil_not_mem m order hw ho)]
    simp only [List.nil_append]
    by_cases he : (order.filterMap result).length > 0
    · simp [he]
    · have : order.filterMap result = [] := by
        cases hfm : order.filterMap result with
        | nil => rfl
        | cons x xs => simp [hfm] at he
      simp [this, errorsJoin]

theorem wellFormed_Close (m : MultiCloser) (order : List Closer)
    (result : Closer → Option GoError) (fresh : Nat) (r : CloseResult) (hw : WellFormed m)
    (ho : IsRangeOrder m order) (h : Close m order result fresh = some r) :
    WellFormed r.m := by
  rw [Close_wellFormed m order result fresh hw ho] at h
  by_cases hl : Len m = 0
  · simp [hl] at h
    subst h
    exact hw
  · simp [hl] at h
    subst h
    exact ⟨∅, rfl, by simp⟩

theorem reachable_wellFormed (m : MultiCloser) (h : Reachable m) : WellFormed m := by
  induction h with
  | new => exact wellFormed_New
  | register m m1 c _ hreg ih => exact wellFormed_Register m m1 c ih hreg
  | unregister m c _ ih => exact wellFormed_Unregister m c ih
  | close m order result fresh r _ ho hcl ih =>
    exact wellFormed_Close m order result fresh r ih ho hcl

theorem reachable_sampleTwo : Reachable sampleTwo :=
  Reachable.register { closers := some {Closer.ref 2} } sampleTwo (Closer.ref 1)
    (Reachable.register New { closers := some {Closer.ref 2} } (Closer.ref 2)
      Reachable.new (by decide))
    (by decide)

/-! ## Close -/

/-- C1: on a registry built by New whose registered set is not empty, for every
assignment of close results and every visiting order, one call of Close returns and has
invoked the Close of every registered handle exactly once and of no other handle,
whichever handles failed. -/
theorem Close_invokes_each_exactly_once (m : MultiCloser) (order : List Closer)
    (result : Closer → Option GoError) (fresh : Nat) (hr : Reachable m)
    (hne : Len m ≠ 0) (ho : IsRangeOrder m order) :
    ∃ r, Close m order result fresh = some r ∧
      (∀ c, r.calls.count c = if c ∈ keys m then 1 else 0) ∧
      r.calls.length = Len m := by
  have hw := reachable_wellFormed m hr
  rw [Close_wellFormed m order result fresh hw ho]
  simp only [hne, if_false]
  refine ⟨_, rfl, ?_, ?_⟩
  · intro c
    exact rangeOrder_count m order ho c
  · show order.length = Len m
    rw [Len_eq_card_keys, ← ho.2, List.toFinset_card_of_nodup ho.1]

theorem Close_invokes_each_exactly_once_witness :
    Reachable sampleTwo ∧ Len sampleTwo ≠ 0 ∧
      IsRangeOrder sampleTwo [Closer.ref 2, Closer.ref 1] ∧
      ∃ r, Close sampleTwo [Closer.ref 2, Closer.ref 1] sampleResult 50 = some r ∧
        (∀ c, r.calls.count c = if c ∈ keys sampleTwo then 1 else 0) ∧
        r.calls.length = Len sampleTwo :=
  ⟨reachable_sampleTwo, by decide, by decide,
    Close_invokes_each_exactly_once sampleTwo [Closer.ref 2, Closer.ref 1] sampleResult 50
      reachable_sampleTwo (by decide) (by decide)⟩

/-- C2: on a registry whose registered set is empty, Close returns exactly
ErrNoCloserRegistered, invokes no handle, and leaves the registry as it was, so Len is 0
before and after. -/
theorem Close_empty (m : MultiCloser) (order : List Closer)
    (result : Closer → Option GoError) (fresh : Nat) (hl : Len m = 0) :
    Close m order result fresh
        = some { m := m, err := some ErrNoCloserRegistered, calls := [] } ∧
      ∀ r, Close m order result fresh = some r →
        r.err = some ErrNoCloserRegistered ∧ r.calls = [] ∧ r.m = m ∧ Len r.m = 0 := by
  have h : Close m order result fresh
      = some { m := m, err := some ErrNoCloserRegistered, calls := [] } := by
    simp [Close, hl]
  refine ⟨h, ?_⟩
  intro r hr
  rw [h] at hr
  injection hr with hr
  subst hr
  exact ⟨rfl, rfl, rfl, hl⟩

theorem Close_empty_witness :
    Len New = 0 ∧
      (Close New [] sampleResult 50
          = some { m := New, err := some ErrNoCloserRegistered, calls := [] } ∧
        ∀ r, Close New [] sampleResult 50 = some r →
          r.err = some ErrNoCloserRegistered ∧ r.calls = [] ∧ r.m = New ∧ Len r.m = 0) :=
  ⟨by decide, Close_empty New [] sampleResult 50 (by decide)⟩

theorem filterMap_eq_nil_iff_forall (result : Closer → Option GoError) (l : List Closer) :
    l.filterMap result = [] ↔ ∀ c ∈ l, result c = none := by
  induction l with
  | nil => simp
  | cons x xs ih =>
    cases hx : result x with
    | none => simp [List.filterMap_cons, hx, ih]
    | some e => simp [List.filterMap_cons, hx]

/-- C3: on a reachable registry whose registered set is not empty, Close returns nil
exactly when no registered handle returned a failure; when some handle failed it returns
one non-nil error, the join of a non-empty list of failures. -/
theorem Close_nil_iff_no_failure (m : MultiCloser) (order : List Closer)
    (result : Closer → Option GoError) (fresh : Nat) (hr : Reachable m)
    (hne : Len m ≠ 0) (ho : IsRangeOrder m order) :
    ∃ r, Close m order result fresh = some r ∧
      (r.err = none ↔ ∀ c ∈ keys m, result c = none) ∧
      ((∃ c ∈ keys m, result c ≠ none) →
        ∃ errs, errs ≠ [] ∧ r.err = some (GoError.joined fresh errs)) := by
  have hw := reachable_wellFormed m hr
  rw [Close_wellFormed m order result fresh hw ho]
  simp only [hne, if_false]
  refine ⟨_, rfl, ?_, ?_⟩
  · show errorsJoin fresh ((order.filterMap result).map some) = none ↔ _
    rw [errorsJoin_map_some]
    constructor
    · intro h c hc
      by_cases hnil : order.filterMap result = []
      · exact (filterMap_eq_nil_iff_forall result order).mp hnil c
          ((rangeOrder_mem m order ho c).mpr hc)
      · simp [hnil] at h
    · intro h
      have hnil : order.filterMap result = [] :=
        (filterMap_eq_nil_iff_forall result order).mpr
          (fun c hc => h c ((rangeOrder_mem m order ho c).mp hc))
      simp [hnil]
  · rintro ⟨c, hc, hres⟩
    refine ⟨order.filterMap result, ?_, ?_⟩
    · intro hnil
      exact hres ((filterMap_eq_nil_iff_forall result order).mp hnil c
        ((rangeOrder_mem m order ho c).mpr hc))
    · show errorsJoin fresh ((order.filterMap result).map some) = _
      rw [errorsJoin_map_some]
      have hnil : order.filterMap result ≠ [] := by
        intro hnil
        exact hres ((filterMap_eq_nil_iff_forall result order).mp hnil c
          ((rangeOrder_mem m order ho c).mpr hc))
      simp [hnil]

theorem Close_nil_iff_no_failure_witness :
    Reachable sampleTwo ∧ Len sampleTwo ≠ 0 ∧
      IsRangeOrder sampleTwo [Closer.ref 2, Closer.ref 1] ∧
      ∃ r, Close sampleTwo [Closer.ref 2, Closer.ref 1] sampleResult 50 = some r ∧
        (r.err = none ↔ ∀ c ∈ keys sampleTwo, sampleResult c = none) ∧
        ((∃ c ∈ keys sampleTwo, sampleResult c ≠ none) →
          ∃ errs, errs ≠ [] ∧ r.err = some (GoError.joined 50 errs)) :=
  ⟨reachable_sampleTwo, by decide, by decide,
    Close_nil_iff_no_failure sampleTwo [Closer.ref 2, Closer.ref 1] sampleResult 50
      reachable_sampleTwo (by decide) (by decide)⟩

theorem reachable_sampleOne : Reachable sampleOne :=
  Reachable.register New sampleOne (Closer.ref 1) Reachable.new (by decide)

theorem mem_filterMap_result (result : Closer → Option GoError) (l : List Closer)
    (f : GoError) : f ∈ l.filterMap result ↔ ∃ c ∈ l, result c = some f := by
  simp [List.mem_filterMap]

/-- C4 fails as stated, in both halves. First, the registry holds one handle, whose
Close returns the join of the errors at addresses 1 and 2 (as a nested registry does):
the error returned by Close matches the error at address 1, which no registered handle
returned. Second, the registry holds one handle, whose Close returns a failure of
non-comparable type without an Is method: the error returned by Close does not match
that failure. -/
theorem Close_matches_error_no_handle_returned :
    Reachable sampleOne ∧ IsRangeOrder sampleOne [Closer.ref 1] ∧
      ((Close sampleOne [Closer.ref 1] nestedResult 50).map (fun r => r.err)
          = some (some (GoError.joined 50
              [GoError.joined 9 [GoError.sentinel 1, GoError.sentinel 2]])) ∧
        errorsIs noIsMethod
          (GoError.joined 50 [GoError.joined 9 [GoError.sentinel 1, GoError.sentinel 2]])
          (GoError.sentinel 1) = true ∧
        ∀ c ∈ keys sampleOne, nestedResult c ≠ some (GoError.sentinel 1)) ∧
      ((Close sampleOne [Closer.ref 1] uncomparableResult 50).map (fun r => r.err)
          = some (some (GoError.joined 50 [GoError.custom 3 false []])) ∧
        uncomparableResult (Closer.ref 1) = some (GoError.custom 3 false []) ∧
        errorsIs noIsMethod (GoError.joined 50 [GoError.custom 3 false []])
          (GoError.custom 3 false []) = false) :=
  ⟨reachable_sampleOne, by decide, ⟨by decide, by decide, by decide⟩,
    ⟨by decide, by decide, by decide⟩⟩

/-- C4 (amended): on a reachable registry in which at least one registered handle fails,
Close returns a non-nil error, for every behaviour of the Is methods of user-defined
errors. That error matches a target exactly when the target is that returned error
itself or is matched by a failure that some registered handle returned. So it matches
every returned failure that matches itself, which every failure of comparable type
does. -/
theorem Close_error_matches (isMethod : Nat → GoError → Bool) (m : MultiCloser)
    (order : List Closer) (result : Closer → Option GoError) (fresh : Nat)
    (hr : Reachable m) (ho : IsRangeOrder m order)
    (hf : ∃ c ∈ keys m, result c ≠ none) :
    ∃ r e, Close m order result fresh = some r ∧ r.err = some e ∧
      (∀ t, errorsIs isMethod e t = true ↔
        (t = e ∨ ∃ c ∈ keys m, ∃ f, result c = some f ∧ errorsIs isMethod f t = true)) ∧
      (∀ c ∈ keys m, ∀ f, result c = some f → errorsIs isMethod f f = true →
        errorsIs isMethod e f = true) ∧
      (∀ c ∈ keys m, ∀ f, result c = some f → f.isComparable = true →
        errorsIs isMethod e f = true) := by
  have hw := reachable_wellFormed m hr
  obtain ⟨c0, hc0, hres0⟩ := hf
  have hne : Len m ≠ 0 := by
    rw [Len_eq_card_keys]
    exact Finset.card_ne_zero_of_mem hc0
  have hnil : order.filterMap result ≠ [] := by
    intro hnil
    exact hres0 ((filterMap_eq_nil_iff_forall result order).mp hnil c0
      ((rangeOrder_mem m order ho c0).mpr hc0))
  have hmatch : ∀ t,
      errorsIs isMethod (GoError.joined fresh (order.filterMap result)) t = true ↔
        (t = GoError.joined fresh (order.filterMap result) ∨
          ∃ c ∈ keys m, ∃ f, result c = some f ∧ errorsIs isMethod f t = true) := by
    intro t
    rw [errorsIs_joined]
    constructor
    · rintro (h | ⟨f, hfm, hft⟩)
      · exact Or.inl h
      · obtain ⟨c, hc, hcf⟩ := (mem_filterMap_result result order f).mp hfm
        exact Or.inr ⟨c, (rangeOrder_mem m order ho c).mp hc, f, hcf, hft⟩
    · rintro (h | ⟨c, hc, f, hcf, hft⟩)
      · exact Or.inl h
      · exact Or.inr ⟨f, (mem_filterMap_result result order f).mpr
          ⟨c, (rangeOrder_mem m order ho c).mpr hc, hcf⟩, hft⟩
  have hclose : Close m order result fresh
      = some { m := { closers := some ∅ },
               err := some (GoError.joined fresh (order.filterMap result)),
               calls := order } := by
    rw [Close_wellFormed m order result fresh hw ho]
    simp only [hne, if_false]
    rw [errorsJoin_map_some]
    simp [hnil]
  refine ⟨_, GoError.joined fresh (order.filterMap result), hclose, rfl, hmatch, ?_, ?_⟩
  · intro c hc f hcf hself
    exact (hmatch f).mpr (Or.inr ⟨c, hc, f, hcf, hself⟩)
  · intro c hc f hcf hcomp
    exact (hmatch f).mpr (Or.inr ⟨c, hc, f, hcf, errorsIs_self isMethod f hcomp⟩)

theorem Close_error_matches_witness :
    Reachable sampleTwo ∧ IsRangeOrder sampleTwo [Closer.ref 2, Closer.ref 1] ∧
      (∃ c ∈ keys sampleTwo, sampleResult c ≠ none) ∧
      ∃ r e, Close sampleTwo [Closer.ref 2, Closer.ref 1] sampleResult 50 = some r ∧
        r.err = some e ∧
        (∀ t, errorsIs noIsMethod e t = true ↔
          (t = e ∨ ∃ c ∈ keys sampleTwo, ∃ f, sampleResult c = some f ∧
            errorsIs noIsMethod f t = true)) ∧
        (∀ c ∈ keys sampleTwo, ∀ f, sampleResult c = some f →
          errorsIs noIsMethod f f = true → errorsIs noIsMethod e f = true) ∧
        (∀ c ∈ keys sampleTwo, ∀ f, sampleResult c = some f → f.isComparable = true →
          errorsIs noIsMethod e f = true) :=
  ⟨reachable_sampleTwo, by decide, ⟨Closer.ref 1, by decide, by decide⟩,
    Close_error_matches noIsMethod sampleTwo [Closer.ref 2, Closer.ref 1] sampleResult 50
      reachable_sampleTwo (by decide) ⟨Closer.ref 1, by decide, by decide⟩⟩

theorem Close_returns_cleared (m : MultiCloser) (order : List Closer)
    (result : Closer → Option GoError) (fresh : Nat) (hw : WellFormed m)
    (ho : IsRangeOrder m order) :
    ∃ r, Close m order result fresh = some r ∧ Len r.m = 0 ∧
      (r.err = some ErrNoCloserRegistered ∨ r.err = none ∨
        ∃ errs, errs ≠ [] ∧ r.err = some (GoError.joined fresh errs)) := by
  rw [Close_wellFormed m order result fresh hw ho]
  by_cases hl : Len m = 0
  · simp only [hl, if_true]
    exact ⟨_, rfl, hl, Or.inl rfl⟩
  · simp only [hl, if_false]
    refine ⟨_, rfl, by simp [Len], Or.inr ?_⟩
    show errorsJoin fresh ((order.filterMap result).map some) = none ∨ _
    rw [errorsJoin_map_some]
    by_cases hnil : order.filterMap result = []
    · exact Or.inl (by simp [hnil])
    · exact Or.inr ⟨order.filterMap result, hnil, by simp [hnil]⟩

/-- C5: on a reachable registry, Close returns with one of its three outcomes
(ErrNoCloserRegistered, nil, or a joined failure) and in each of them Len is 0
afterwards: the registered set is cleared also when handles failed to close. -/
theorem Len_zero_after_Close (m : MultiCloser) (order : List Closer)
    (result : Closer → Option GoError) (fresh : Nat) (hr : Reachable m)
    (ho : IsRangeOrder m order) :
    ∃ r, Close m order result fresh = some r ∧ Len r.m = 0 ∧
      (r.err = some ErrNoCloserRegistered ∨ r.err = none ∨
        ∃ errs, errs ≠ [] ∧ r.err = some (GoError.joined fresh errs)) := by
  exact Close_returns_cleared m order result fresh (reachable_wellFormed m hr) ho

theorem Len_zero_after_Close_witness :
    Reachable sampleTwo ∧ IsRangeOrder sampleTwo [Closer.ref 2, Closer.ref 1] ∧
      ∃ r, Close sampleTwo [Closer.ref 2, Closer.ref 1] sampleResult 50 = some r ∧
        Len r.m = 0 ∧
        (r.err = some ErrNoCloserRegistered ∨ r.err = none ∨
          ∃ errs, errs ≠ [] ∧ r.err = some (GoError.joined 50 errs)) :=
  ⟨reachable_sampleTwo, by decide,
    Len_zero_after_Close sampleTwo [Closer.ref 2, Closer.ref 1] sampleResult 50
      reachable_sampleTwo (by decide)⟩

/-! ## Register, Unregister and Len -/

theorem mem_nonNil (cs : List Closer) (c : Closer) :
    c ∈ nonNil cs ↔ c ∈ cs ∧ c ≠ Closer.nil := by
  simp [nonNil]

theorem registerAll_wellFormed (cs : List Closer) :
    ∀ m, WellFormed m →
      ∃ m1, registerAll m cs = some m1 ∧ WellFormed m1 ∧
        keys m1 = keys m ∪ (nonNil cs).toFinset := by
  induction cs with
  | nil =>
    intro m hw
    exact ⟨m, rfl, hw, by simp [nonNil]⟩
  | cons c cs ih =>
    intro m hw
    obtain ⟨m1, hreg, hw1, hk1⟩ := Register_isSome m c hw
    obtain ⟨m2, hall, hw2, hk2⟩ := ih m1 hw1
    refine ⟨m2, by simp [registerAll, hreg, hall], hw2, ?_⟩
    rw [hk2, hk1]
    by_cases hc : c = Closer.nil
    · simp [hc, nonNil]
    · ext d
      simp [hc, nonNil, List.filter_cons]

/-- C6: after any finite sequence of Register calls on a registry fresh from New, every
call having returned, Len equals the number of distinct non-nil handles that occur in the
sequence, and the registered handles are exactly those; for the empty sequence Len
is 0. -/
theorem Len_after_registerAll (cs : List Closer) :
    ∃ m, registerAll New cs = some m ∧
      Len m = (nonNil cs).dedup.length ∧
      (∀ c, c ∈ keys m ↔ c ∈ cs ∧ c ≠ Closer.nil) ∧
      (cs = [] → Len m = 0) := by
  obtain ⟨m, hall, _, hk⟩ := registerAll_wellFormed cs New wellFormed_New
  have hk2 : keys m = (nonNil cs).toFinset := by
    rw [hk]
    simp [keys, New]
  refine ⟨m, hall, ?_, ?_, ?_⟩
  · rw [Len_eq_card_keys, hk2, List.card_toFinset]
  · intro c
    rw [hk2, List.mem_toFinset, mem_nonNil]
  · intro hcs
    rw [Len_eq_card_keys, hk2, hcs]
    rfl

theorem keys_Unregister (m : MultiCloser) (h : Closer) :
    keys (Unregister m h) = (keys m).erase h := by
  cases m with
  | mk closers => cases closers <;> simp [Unregister, keys]

/-- C7 fails as stated in its last clause: on the registry from New, Unregister of a
closer whose dynamic type is unhashable, which was never registered, panics. -/
theorem Unregister_unhashable_panics :
    Reachable New ∧ UnregisterAny New (CloserValue.unhashable 1) = none :=
  ⟨Reachable.new, rfl⟩

/-- C7 (amended): Unregister of a registered handle removes that handle and nothing else,
so Len goes down by exactly one and the handle is no longer a member; Unregister of a
handle that is not registered (nil or never registered included) leaves the registry
unchanged. For a handle of the data model Unregister returns on every registry; for a
closer of unhashable dynamic type it panics. -/
theorem Unregister_removes_only_h (m : MultiCloser) (h : Closer) :
    (h ∈ keys m →
      Len (Unregister m h) + 1 = Len m ∧ h ∉ keys (Unregister m h) ∧
        ∀ d, d ≠ h → (d ∈ keys (Unregister m h) ↔ d ∈ keys m)) ∧
    (h ∉ keys m → Unregister m h = m ∧ Len (Unregister m h) = Len m) ∧
    UnregisterAny m (CloserValue.handle h) = some (Unregister m h) ∧
    ∀ k, UnregisterAny m (CloserValue.unhashable k) = none := by
  refine ⟨?_, ?_, rfl, fun _ => rfl⟩
  · intro hmem
    refine ⟨?_, ?_, ?_⟩
    · rw [Len_eq_card_keys, Len_eq_card_keys, keys_Unregister]
      exact Finset.card_erase_add_one hmem
    · rw [keys_Unregister]
      exact Finset.not_mem_erase h (keys m)
    · intro d hd
      rw [keys_Unregister, Finset.mem_erase]
      exact ⟨fun hh => hh.2, fun hh => ⟨hd, hh⟩⟩
  · intro hmem
    have heq : Unregister m h = m := by
      cases m with
      | mk closers =>
        cases closers with
        | none => rfl
        | some s =>
          have hs : h ∉ s := hmem
          simp [Unregister, Finset.erase_eq_of_not_mem hs]
    exact ⟨heq, by rw [heq]⟩

theorem applyOps_wellFormed (h : Closer) (ops : List Op) :
    ∀ m, WellFormed m → h ∉ keys m → Op.register h ∉ ops →
      ∃ m1, applyOps m ops = some m1 ∧ WellFormed m1 ∧ h ∉ keys m1 := by
  induction ops with
  | nil =>
    intro m hw hk _
    exact ⟨m, rfl, hw, hk⟩
  | cons op ops ih =>
    intro m hw hk hnot
    have hop : op ≠ Op.register h := fun hh => hnot (by simp [hh])
    have hrest : Op.register h ∉ ops := fun hh => hnot (List.mem_cons_of_mem _ hh)
    cases op with
    | register c =>
      have hc : c ≠ h := fun hh => hop (by rw [hh])
      obtain ⟨m1, hreg, hw1, hk1⟩ := Register_isSome m c hw
      have hk1h : h ∉ keys m1 := by
        rw [hk1]
        by_cases hcn : c = Closer.nil
        · simpa [hcn] using hk
        · simp only [hcn, if_false, Finset.mem_insert, not_or]
          exact ⟨fun hh => hc hh.symm, hk⟩
      obtain ⟨m2, hall, hw2, hk2⟩ := ih m1 hw1 hk1h hrest
      exact ⟨m2, by simp [applyOps, applyOp, hreg, hall], hw2, hk2⟩
    | unregister c =>
      have hk1h : h ∉ keys (Unregister m c) := by
        rw [keys_Unregister]
        exact fun hh => hk (Finset.mem_of_mem_erase hh)
      obtain ⟨m2, hall, hw2, hk2⟩ :=
        ih (Unregister m c) (wellFormed_Unregister m c hw) hk1h hrest
      exact ⟨m2, by simp [applyOps, applyOp, hall], hw2, hk2⟩

/-- C8: a handle h is registered on a reachable registry and then unregistered; any
further Register and Unregister calls follow, none of them registering h again. All these
calls return, and the next Close, for every visiting order and all close results, does
not invoke the Close of h while it invokes once the Close of every handle registered at
that moment. -/
theorem Close_skips_unregistered (m0 : MultiCloser) (h : Closer) (ops : List Op)
    (result : Closer → Option GoError) (fresh : Nat) (hr : Reachable m0)
    (hnot : Op.register h ∉ ops) :
    ∃ m1 m3, Register m0 h = some m1 ∧ applyOps (Unregister m1 h) ops = some m3 ∧
      ∀ order, IsRangeOrder m3 order →
        ∃ r, Close m3 order result fresh = some r ∧ h ∉ r.calls ∧
          ∀ c ∈ keys m3, r.calls.count c = 1 := by
  have hw0 := reachable_wellFormed m0 hr
  obtain ⟨m1, hreg, hw1, _⟩ := Register_isSome m0 h hw0
  have hk2 : h ∉ keys (Unregister m1 h) := by
    rw [keys_Unregister]
    exact Finset.not_mem_erase h (keys m1)
  obtain ⟨m3, hops, hw3, hk3⟩ :=
    applyOps_wellFormed h ops (Unregister m1 h) (wellFormed_Unregister m1 h hw1) hk2 hnot
  refine ⟨m1, m3, hreg, hops, ?_⟩
  intro order ho
  have hcalls : ∀ r, Close m3 order result fresh = some r →
      h ∉ r.calls ∧ ∀ c ∈ keys m3, r.calls.count c = 1 := by
    intro r hcl
    rw [Close_wellFormed m3 order result fresh hw3 ho] at hcl
    by_cases hl : Len m3 = 0
    · simp only [hl, if_true] at hcl
      injection hcl with hcl
      subst hcl
      refine ⟨by simp, ?_⟩
      intro c hc
      rw [Len_eq_card_keys, Finset.card_eq_zero] at hl
      rw [hl] at hc
      exact absurd hc (Finset.not_mem_empty c)
    · simp only [hl, if_false] at hcl
      injection hcl with hcl
      subst hcl
      refine ⟨fun hh => hk3 ((rangeOrder_mem m3 order ho h).mp hh), ?_⟩
      intro c hc
      show order.count c = 1
      rw [rangeOrder_count m3 order ho c]
      simp [hc]
  by_cases hl : Len m3 = 0
  · have hcl := Close_wellFormed m3 order result fresh hw3 ho
    simp only [hl, if_true] at hcl
    exact ⟨_, hcl, hcalls _ hcl⟩
  · have hcl := Close_wellFormed m3 order result fresh hw3 ho
    simp only [hl, if_false] at hcl
    exact ⟨_, hcl, hcalls _ hcl⟩

theorem Close_skips_unregistered_witness :
    Reachable New ∧
      Op.register (Closer.ref 1) ∉ [Op.register (Closer.ref 2), Op.unregister (Closer.ref 3)] ∧
      ∃ m1 m3, Register New (Closer.ref 1) = some m1 ∧
        applyOps (Unregister m1 (Closer.ref 1))
          [Op.register (Closer.ref 2), Op.unregister (Closer.ref 3)] = some m3 ∧
        ∀ order, IsRangeOrder m3 order →
          ∃ r, Close m3 order sampleResult 50 = some r ∧ Closer.ref 1 ∉ r.calls ∧
            ∀ c ∈ keys m3, r.calls.count c = 1 :=
  ⟨Reachable.new, by decide,
    Close_skips_unregistered New (Closer.ref 1)
      [Op.register (Closer.ref 2), Op.unregister (Closer.ref 3)] sampleResult 50
      Reachable.new (by decide)⟩

theorem keys_after_Close (m : MultiCloser) (order : List Closer)
    (result : Closer → Option GoError) (fresh : Nat) (r : CloseResult) (hw : WellFormed m)
    (ho : IsRangeOrder m order) (h : Close m order result fresh = some r) :
    keys r.m = ∅ ∧ ∀ c ∈ r.calls, c ∈ keys m := by
  rw [Close_wellFormed m order result fresh hw ho] at h
  by_cases hl : Len m = 0
  · simp only [hl, if_true] at h
    injection h with h
    subst h
    refine ⟨?_, by simp⟩
    rw [Len_eq_card_keys, Finset.card_eq_zero] at hl
    exact hl
  · simp only [hl, if_false] at h
    injection h with h
    subst h
    exact ⟨rfl, fun c hc => (rangeOrder_mem m order ho c).mp hc⟩

/-- C9: after a Close on a reachable registry, whatever it returned, registering the
handles of a list S returns, Len then equals the number of distinct non-nil handles of S,
and the next Close, for every visiting order and all close results, invokes once the
Close of each non-nil handle of S and of nothing else; so a handle closed by the first
Close and not in S is not closed again. -/
theorem reuse_after_Close (m : MultiCloser) (order1 : List Closer)
    (result1 result2 : Closer → Option GoError) (fresh1 fresh2 : Nat) (S : List Closer)
    (hr : Reachable m) (ho : IsRangeOrder m order1) :
    ∃ r1 m2, Close m order1 result1 fresh1 = some r1 ∧ registerAll r1.m S = some m2 ∧
      Len m2 = (nonNil S).dedup.length ∧
      ∀ order2, IsRangeOrder m2 order2 →
        ∃ r2, Close m2 order2 result2 fresh2 = some r2 ∧
          (∀ c, r2.calls.count c = if c ∈ S ∧ c ≠ Closer.nil then 1 else 0) ∧
          (∀ c ∈ r1.calls, c ∉ S → c ∉ r2.calls) := by
  have hw := reachable_wellFormed m hr
  obtain ⟨r1, hcl1, _, _⟩ := Close_returns_cleared m order1 result1 fresh1 hw ho
  have hw1 := wellFormed_Close m order1 result1 fresh1 r1 hw ho hcl1
  have hk1 := (keys_after_Close m order1 result1 fresh1 r1 hw ho hcl1).1
  obtain ⟨m2, hall, hw2, hk2⟩ := registerAll_wellFormed S r1.m hw1
  have hk2 : keys m2 = (nonNil S).toFinset := by
    rw [hk2, hk1]
    simp
  have hmem : ∀ c, c ∈ keys m2 ↔ c ∈ S ∧ c ≠ Closer.nil := by
    intro c
    rw [hk2, List.mem_toFinset, mem_nonNil]
  refine ⟨r1, m2, hcl1, hall, ?_, ?_⟩
  · rw [Len_eq_card_keys, hk2, List.card_toFinset]
  · intro order2 ho2
    obtain ⟨r2, hcl2, _, _⟩ := Close_returns_cleared m2 order2 result2 fresh2 hw2 ho2
    have hcalls : ∀ c, r2.calls.count c = if c ∈ keys m2 then 1 else 0 := by
      intro c
      rw [Close_wellFormed m2 order2 result2 fresh2 hw2 ho2] at hcl2
      by_cases hl : Len m2 = 0
      · simp only [hl, if_true] at hcl2
        injection hcl2 with hcl2
        subst hcl2
        rw [Len_eq_card_keys, Finset.card_eq_zero] at hl
        simp [hl]
      · simp only [hl, if_false] at hcl2
        injection hcl2 with hcl2
        subst hcl2
        exact rangeOrder_count m2 order2 ho2 c
    refine ⟨r2, hcl2, ?_, ?_⟩
    · intro c
      rw [hcalls c]
      by_cases hc : c ∈ keys m2
      · simp [hc, (hmem c).mp hc]
      · have hc2 : ¬ (c ∈ S ∧ c ≠ Closer.nil) := fun hh => hc ((hmem c).mpr hh)
        simp only [hc, hc2, if_false]
    · intro c _ hcS hc2
      have hcount : r2.calls.count c = 0 := by
        rw [hcalls c]
        have hc : c ∉ keys m2 := fun hh => hcS ((hmem c).mp hh).1
        simp [hc]
      exact (List.count_eq_zero.mp hcount) hc2

theorem reuse_after_Close_witness :
    Reachable sampleTwo ∧ IsRangeOrder sampleTwo [Closer.ref 2, Closer.ref 1] ∧
      ∃ r1 m2, Close sampleTwo [Closer.ref 2, Closer.ref 1] sampleResult 50 = some r1 ∧
        registerAll r1.m [Closer.ref 3, Closer.nil, Closer.ref 3] = some m2 ∧
        Len m2 = (nonNil [Closer.ref 3, Closer.nil, Closer.ref 3]).dedup.length ∧
        ∀ order2, IsRangeOrder m2 order2 →
          ∃ r2, Close m2 order2 nestedResult 51 = some r2 ∧
            (∀ c, r2.calls.count c =
              if c ∈ [Closer.ref 3, Closer.nil, Closer.ref 3] ∧ c ≠ Closer.nil then 1
              else 0) ∧
            (∀ c ∈ r1.calls, c ∉ [Closer.ref 3, Closer.nil, Closer.ref 3] →
              c ∉ r2.calls) :=
  ⟨reachable_sampleTwo, by decide,
    reuse_after_Close sampleTwo [Closer.ref 2, Closer.ref 1] sampleResult nestedResult 50 51
      [Closer.ref 3, Closer.nil, Closer.ref 3] reachable_sampleTwo (by decide)⟩

/-- C10: on every registry, the zero-valued one included, Register of the nil handle
returns without a panic and leaves the registry, hence the registered set and Len,
unchanged. -/
theorem Register_nil_noop (m : MultiCloser) :
    Register m Closer.nil = some m ∧
      ∀ m1, Register m Closer.nil = some m1 → keys m1 = keys m ∧ Len m1 = Len m := by
  have h : Register m Closer.nil = some m := by simp [Register]
  refine ⟨h, ?_⟩
  intro m1 h1
  rw [h] at h1
  injection h1 with h1
  subst h1
  exact ⟨rfl, rfl⟩

/-- C11: on a registry whose map is allocated, Register of a non-nil handle h returns;
a second Register of h returns the same state as the first; when h was already present
the state is unchanged and Len stays, when h was absent Len grows by exactly one, so one
Register call raises Len by at most one. -/
theorem Register_idempotent (m : MultiCloser) (h : Closer) (halloc : m.closers ≠ none)
    (hh : h ≠ Closer.nil) :
    ∃ m1, Register m h = some m1 ∧ Register m1 h = some m1 ∧
      (Register m h).bind (fun m2 => Register m2 h) = Register m h ∧
      (h ∈ keys m → m1 = m ∧ Len m1 = Len m) ∧
      (h ∉ keys m → Len m1 = Len m + 1) ∧
      Len m1 ≤ Len m + 1 := by
  cases m with
  | mk closers =>
    cases closers with
    | none => exact absurd rfl halloc
    | some s =>
      have h1 : Register { closers := some s } h = some { closers := some (insert h s) } := by
        simp [Register, hh]
      have h2 : Register { closers := some (insert h s) } h
          = some { closers := some (insert h s) } := by
        simp [Register, hh]
      refine ⟨{ closers := some (insert h s) }, h1, h2, ?_, ?_, ?_, ?_⟩
      · rw [h1]
        exact h2
      · intro hmem
        have hs : h ∈ s := hmem
        have hins : insert h s = s := Finset.insert_eq_of_mem hs
        exact ⟨by rw [hins], by simp [Len, hins]⟩
      · intro hmem
        have hs : h ∉ s := hmem
        simp [Len, Finset.card_insert_of_not_mem hs]
      · show (insert h s).card ≤ s.card + 1
        exact Finset.card_insert_le h s

theorem Register_idempotent_witness :
    sampleOne.closers ≠ none ∧ Closer.ref 2 ≠ Closer.nil ∧
      ∃ m1, Register sampleOne (Closer.ref 2) = some m1 ∧
        Register m1 (Closer.ref 2) = some m1 ∧
        (Register sampleOne (Closer.ref 2)).bind (fun m2 => Register m2 (Closer.ref 2))
          = Register sampleOne (Closer.ref 2) ∧
        (Closer.ref 2 ∈ keys sampleOne → m1 = sampleOne ∧ Len m1 = Len sampleOne) ∧
        (Closer.ref 2 ∉ keys sampleOne → Len m1 = Len sampleOne + 1) ∧
        Len m1 ≤ Len sampleOne + 1 :=
  ⟨by decide, by decide,
    Register_idempotent sampleOne (Closer.ref 2) (by decide) (by decide)⟩

/-! ## Matching ErrNoCloserRegistered -/

/-- C12 fails as stated: the registry holds one handle, whose Close returns
ErrNoCloserRegistered (as a nested empty registry does). The registered set is not empty
when Close is called, yet the error Close returns matches ErrNoCloserRegistered. -/
theorem Close_matches_ErrNoCloserRegistered_nonempty :
    Reachable sampleOne ∧ IsRangeOrder sampleOne [Closer.ref 1] ∧ Len sampleOne ≠ 0 ∧
      (Close sampleOne [Closer.ref 1] emptyNestedResult 50).map (fun r => r.err)
        = some (some (GoError.joined 50 [ErrNoCloserRegistered])) ∧
      errorsIsOpt noIsMethod (some (GoError.joined 50 [ErrNoCloserRegistered]))
        (some ErrNoCloserRegistered) = true :=
  ⟨reachable_sampleOne, by decide, by decide, by decide, by decide⟩

/-- C12 (amended): on a reachable registry, for every behaviour of the Is methods of
user-defined errors, the error returned by Close matches ErrNoCloserRegistered exactly
when the registered set was empty when Close was called or some registered handle
returned a failure that itself matches ErrNoCloserRegistered; and when the set was empty
Close returns exactly ErrNoCloserRegistered, while on a non-empty set the returned error
is never ErrNoCloserRegistered itself. -/
theorem Close_matches_ErrNoCloserRegistered_iff (isMethod : Nat → GoError → Bool)
    (m : MultiCloser) (order : List Closer) (result : Closer → Option GoError)
    (fresh : Nat) (hr : Reachable m) (ho : IsRangeOrder m order) :
    ∃ r, Close m order result fresh = some r ∧
      (errorsIsOpt isMethod r.err (some ErrNoCloserRegistered) = true ↔
        (Len m = 0 ∨
          ∃ c ∈ keys m, ∃ f, result c = some f ∧
            errorsIs isMethod f ErrNoCloserRegistered = true)) ∧
      (r.err = some ErrNoCloserRegistered ↔ Len m = 0) := by
  have hw := reachable_wellFormed m hr
  rw [Close_wellFormed m order result fresh hw ho]
  by_cases hl : Len m = 0
  · simp only [hl, if_true]
    refine ⟨_, rfl, ?_, ?_⟩
    · constructor
      · intro _
        exact Or.inl trivial
      · intro _
        show errorsIs isMethod ErrNoCloserRegistered ErrNoCloserRegistered = true
        exact errorsIs_self isMethod _ rfl
    · exact ⟨fun _ => trivial, fun _ => rfl⟩
  · simp only [hl, if_false]
    refine ⟨_, rfl, ?_, ?_⟩
    · show errorsIsOpt isMethod (errorsJoin fresh ((order.filterMap result).map some))
        (some ErrNoCloserRegistered) = true ↔ _
      rw [errorsJoin_map_some]
      by_cases hnil : order.filterMap result = []
      · simp only [hnil, if_true]
        constructor
        · intro hcontra
          simp [errorsIsOpt] at hcontra
        · rintro (h0 | ⟨c, hc, f, hcf, _⟩)
          · exact h0.elim
          · have hnone := (filterMap_eq_nil_iff_forall result order).mp hnil c
              ((rangeOrder_mem m order ho c).mpr hc)
            rw [hnone] at hcf
            exact absurd hcf (by simp)
      · simp only [hnil, if_false]
        show errorsIs isMethod (GoError.joined fresh (order.filterMap result))
          ErrNoCloserRegistered = true ↔ _
        rw [errorsIs_joined]
        constructor
        · rintro (heq | ⟨f, hfm, hft⟩)
          · exact absurd heq (by simp [ErrNoCloserRegistered])
          · obtain ⟨c, hc, hcf⟩ := (mem_filterMap_result result order f).mp hfm
            exact Or.inr ⟨c, (rangeOrder_mem m order ho c).mp hc, f, hcf, hft⟩
        · rintro (h0 | ⟨c, hc, f, hcf, hft⟩)
          · exact h0.elim
          · exact Or.inr ⟨f, (mem_filterMap_result result order f).mpr
              ⟨c, (rangeOrder_mem m order ho c).mpr hc, hcf⟩, hft⟩
    · show errorsJoin fresh ((order.filterMap result).map some)
        = some ErrNoCloserRegistered ↔ False
      rw [errorsJoin_map_some]
      by_cases hnil : order.filterMap result = []
      · simp [hnil]
      · simp [hnil, ErrNoCloserRegistered]

theorem Close_matches_ErrNoCloserRegistered_iff_witness :
    Reachable sampleTwo ∧ IsRangeOrder sampleTwo [Closer.ref 2, Closer.ref 1] ∧
      ∃ r, Close sampleTwo [Closer.ref 2, Closer.ref 1] sampleResult 50 = some r ∧
        (errorsIsOpt noIsMethod r.err (some ErrNoCloserRegistered) = true ↔
          (Len sampleTwo = 0 ∨
            ∃ c ∈ keys sampleTwo, ∃ f, sampleResult c = some f ∧
              errorsIs noIsMethod f ErrNoCloserRegistered = true)) ∧
        (r.err = some ErrNoCloserRegistered ↔ Len sampleTwo = 0) :=
  ⟨reachable_sampleTwo, by decide,
    Close_matches_ErrNoCloserRegistered_iff noIsMethod sampleTwo
      [Closer.ref 2, Closer.ref 1] sampleResult 50 reachable_sampleTwo (by decide)⟩

theorem Close_on_empty_state (m : MultiCloser) (order : List Closer)
    (result : Closer → Option GoError) (fresh : Nat) (hl : Len m = 0) :
    Close m order result fresh
      = some { m := m, err := some ErrNoCloserRegistered, calls := [] } := by
  simp [Close, hl]

/-! ## Repeated Close -/

theorem closeRepeat_empty (m : MultiCloser) (hl : Len m = 0) :
    ∀ envs : List CloseEnv, ∃ rs, closeRepeat m envs = some rs ∧ rs.length = envs.length ∧
      ∀ r ∈ rs, r.err = some ErrNoCloserRegistered ∧ r.calls = [] ∧ r.m = m := by
  intro envs
  induction envs with
  | nil => exact ⟨[], rfl, rfl, by simp⟩
  | cons e rest ih =>
    obtain ⟨rs, hrs, hlen, hall⟩ := ih
    have hcl := (Close_on_empty_state m e.order e.result e.fresh hl)
    refine ⟨{ m := m, err := some ErrNoCloserRegistered, calls := [] } :: rs, ?_, ?_, ?_⟩
    · simp [closeRepeat, hcl, hrs]
    · simp [hlen]
    · intro r hr
      rcases List.mem_cons.mp hr with heq | hmem
      · subst heq
        exact ⟨rfl, rfl, rfl⟩
      · exact hall r hmem

/-- C13: n Close calls (n at least 1) run one after another on a reachable registry
whose registered set is not empty, with nothing in between. All of them return. The first
invokes the Close of every registered handle once and returns nil or a joined failure
according to the results; each of the other n-1 calls invokes no Close and returns
ErrNoCloserRegistered. -/
theorem closeRepeat_first_only (m : MultiCloser) (e : CloseEnv) (rest : List CloseEnv)
    (hr : Reachable m) (hne : Len m ≠ 0) (ho : IsRangeOrder m e.order) :
    ∃ r rs, closeRepeat m (e :: rest) = some (r :: rs) ∧ rs.length = rest.length ∧
      (∀ c, r.calls.count c = if c ∈ keys m then 1 else 0) ∧
      (r.err = none ↔ ∀ c ∈ keys m, e.result c = none) ∧
      (r.err = none ∨ ∃ errs, errs ≠ [] ∧ r.err = some (GoError.joined e.fresh errs)) ∧
      ∀ r2 ∈ rs, r2.err = some ErrNoCloserRegistered ∧ r2.calls = [] ∧ Len r2.m = 0 := by
  have hw := reachable_wellFormed m hr
  have hcl := Close_wellFormed m e.order e.result e.fresh hw ho
  simp only [hne, if_false] at hcl
  have hl0 : Len ({ closers := some ∅ } : MultiCloser) = 0 := by simp [Len]
  obtain ⟨rs, hrs, hlen, hall⟩ := closeRepeat_empty { closers := some ∅ } hl0 rest
  refine ⟨{ m := { closers := some ∅ },
            err := errorsJoin e.fresh ((e.order.filterMap e.result).map some),
            calls := e.order }, rs, by simp [closeRepeat, hcl, hrs], hlen, ?_, ?_, ?_, ?_⟩
  · intro c
    exact rangeOrder_count m e.order ho c
  · show errorsJoin e.fresh ((e.order.filterMap e.result).map some) = none ↔ _
    rw [errorsJoin_map_some]
    constructor
    · intro h c hc
      by_cases hnil : e.order.filterMap e.result = []
      · exact (filterMap_eq_nil_iff_forall e.result e.order).mp hnil c
          ((rangeOrder_mem m e.order ho c).mpr hc)
      · simp [hnil] at h
    · intro h
      have hnil : e.order.filterMap e.result = [] :=
        (filterMap_eq_nil_iff_forall e.result e.order).mpr
          (fun c hc => h c ((rangeOrder_mem m e.order ho c).mp hc))
      simp [hnil]
  · show errorsJoin e.fresh ((e.order.filterMap e.result).map some) = none ∨ _
    rw [errorsJoin_map_some]
    by_cases hnil : e.order.filterMap e.result = []
    · exact Or.inl (by simp [hnil])
    · exact Or.inr ⟨e.order.filterMap e.result, hnil, by simp [hnil]⟩
  · intro r2 hr2
    obtain ⟨h1, h2, h3⟩ := hall r2 hr2
    exact ⟨h1, h2, by rw [h3]; exact hl0⟩

theorem closeRepeat_first_only_witness :
    Reachable sampleTwo ∧ Len sampleTwo ≠ 0 ∧
      IsRangeOrder sampleTwo [Closer.ref 2, Closer.ref 1] ∧
      ∃ r rs, closeRepeat sampleTwo
          ({ order := [Closer.ref 2, Closer.ref 1], result := sampleResult, fresh := 50 } ::
            [{ order := [], result := bothFailResult, fresh := 51 },
             { order := [], result := sampleResult, fresh := 52 }]) = some (r :: rs) ∧
        rs.length = 2 ∧
        (∀ c, r.calls.count c = if c ∈ keys sampleTwo then 1 else 0) ∧
        (r.err = none ↔ ∀ c ∈ keys sampleTwo, sampleResult c = none) ∧
        (r.err = none ∨ ∃ errs, errs ≠ [] ∧ r.err = some (GoError.joined 50 errs)) ∧
        ∀ r2 ∈ rs, r2.err = some ErrNoCloserRegistered ∧ r2.calls = [] ∧ Len r2.m = 0 :=
  ⟨reachable_sampleTwo, by decide, by decide,
    closeRepeat_first_only sampleTwo
      { order := [Closer.ref 2, Closer.ref 1], result := sampleResult, fresh := 50 }
      [{ order := [], result := bothFailResult, fresh := 51 },
       { order := [], result := sampleResult, fresh := 52 }]
      reachable_sampleTwo (by decide) (by decide)⟩

/-! ## Visiting order -/

/-- C14: the code breaks the claim at this input. The registry holds closers 1 and 2,
which fail with the errors at addresses 7 and 8. Two runs of Close with the same state
and the same close results, which visit the handles in the two possible orders, return
joined errors whose failure lists are in different order, so the two results differ. -/
theorem Close_error_order_depends_on_visit :
    Reachable sampleTwo ∧
      IsRangeOrder sampleTwo [Closer.ref 1, Closer.ref 2] ∧
      IsRangeOrder sampleTwo [Closer.ref 2, Closer.ref 1] ∧
      (Close sampleTwo [Closer.ref 1, Closer.ref 2] bothFailResult 50).map (fun r => r.err)
        = some (some (GoError.joined 50 [GoError.sentinel 7, GoError.sentinel 8])) ∧
      (Close sampleTwo [Closer.ref 2, Closer.ref 1] bothFailResult 50).map (fun r => r.err)
        = some (some (GoError.joined 50 [GoError.sentinel 8, GoError.sentinel 7])) ∧
      GoError.joined 50 [GoError.sentinel 7, GoError.sentinel 8]
        ≠ GoError.joined 50 [GoError.sentinel 8, GoError.sentinel 7] :=
  ⟨reachable_sampleTwo, by decide, by decide, by decide, by decide, by decide⟩

/-- What does not depend on the visiting order: two runs of Close on the same reachable
registry with the same per-handle close results both return, leave the same registry,
invoke the same handles, and return the same kind of outcome: both nil, both
ErrNoCloserRegistered, or both a joined error whose lists of collected failures are
permutations of each other. -/
theorem Close_same_up_to_visiting_order (m : MultiCloser) (o1 o2 : List Closer)
    (result : Closer → Option GoError) (fresh1 fresh2 : Nat) (hr : Reachable m)
    (ho1 : IsRangeOrder m o1) (ho2 : IsRangeOrder m o2) :
    ∃ r1 r2, Close m o1 result fresh1 = some r1 ∧ Close m o2 result fresh2 = some r2 ∧
      r1.m = r2.m ∧ r1.calls.Perm r2.calls ∧
      ((r1.err = none ∧ r2.err = none) ∨
        (r1.err = some ErrNoCloserRegistered ∧ r2.err = some ErrNoCloserRegistered) ∨
        ∃ l1 l2, l1 ≠ [] ∧ r1.err = some (GoError.joined fresh1 l1) ∧
          r2.err = some (GoError.joined fresh2 l2) ∧ l1.Perm l2) := by
  have hw := reachable_wellFormed m hr
  have hperm : o1.Perm o2 :=
    List.perm_of_nodup_nodup_toFinset_eq ho1.1 ho2.1 (by rw [ho1.2, ho2.2])
  have hfm : (o1.filterMap result).Perm (o2.filterMap result) := hperm.filterMap result
  have hcl1 := Close_wellFormed m o1 result fresh1 hw ho1
  have hcl2 := Close_wellFormed m o2 result fresh2 hw ho2
  by_cases hl : Len m = 0
  · simp only [hl, if_true] at hcl1 hcl2
    exact ⟨_, _, hcl1, hcl2, rfl, List.Perm.refl _, Or.inr (Or.inl ⟨rfl, rfl⟩)⟩
  · simp only [hl, if_false] at hcl1 hcl2
    refine ⟨_, _, hcl1, hcl2, rfl, hperm, ?_⟩
    show (errorsJoin fresh1 ((o1.filterMap result).map some) = none ∧
        errorsJoin fresh2 ((o2.filterMap result).map some) = none) ∨ _
    rw [errorsJoin_map_some, errorsJoin_map_some]
    by_cases hnil : o1.filterMap result = []
    · have hnil2 : o2.filterMap result = [] := by
        have := hfm
        rw [hnil] at this
        exact List.Perm.nil_eq this |>.symm
      exact Or.inl ⟨by simp [hnil], by simp [hnil2]⟩
    · have hnil2 : o2.filterMap result ≠ [] := by
        intro h2
        have := hfm
        rw [h2] at this
        exact hnil (List.Perm.eq_nil this)
      exact Or.inr (Or.inr ⟨o1.filterMap result, o2.filterMap result, hnil,
        by simp [hnil], by simp [hnil2], hfm⟩)

/-- C17: on a reachable registry whose registered set is not empty, for every visiting
order, the failures that the loop of Close collects are the visiting order's sequence of
close results with the nil results removed, the invocations are the visiting order
itself, and Close returns the join of exactly that list (nil when the list is empty). -/
theorem Close_collects_in_visiting_order (m : MultiCloser) (order : List Closer)
    (result : Closer → Option GoError) (fresh : Nat) (hr : Reachable m)
    (hne : Len m ≠ 0) (ho : IsRangeOrder m order) :
    closeLoop result order [] [] = some ((order.map result).reduceOption, order) ∧
      ∃ r, Close m order result fresh = some r ∧ r.calls = order ∧
        ((order.map result).reduceOption = [] → r.err = none) ∧
        ((order.map result).reduceOption ≠ [] →
          r.err = some (GoError.joined fresh (order.map result).reduceOption)) ∧
        (order.map result).reduceOption.length
          = (order.filter (fun c => (result c).isSome)).length := by
  have hw := reachable_wellFormed m hr
  have hred : (order.map result).reduceOption = order.filterMap result := by
    unfold List.reduceOption
    rw [List.filterMap_map]
    rfl
  have hloop := closeLoop_eq result order [] [] (rangeOrder_nil_not_mem m order hw ho)
  simp only [List.nil_append] at hloop
  have hcl := Close_wellFormed m order result fresh hw ho
  simp only [hne, if_false] at hcl
  rw [errorsJoin_map_some] at hcl
  rw [hred]
  refine ⟨hloop, _, hcl, rfl, ?_, ?_, ?_⟩
  · intro hnil
    simp [hnil]
  · intro hnil
    simp [hnil]
  · clear hloop hcl hred ho
    induction order with
    | nil => rfl
    | cons x xs ih =>
      cases hx : result x with
      | none => simp [List.filterMap_cons, List.filter_cons, hx, ih]
      | some f => simp [List.filterMap_cons, List.filter_cons, hx, ih]

theorem Close_collects_in_visiting_order_witness :
    Reachable sampleTwo ∧ Len sampleTwo ≠ 0 ∧
      IsRangeOrder sampleTwo [Closer.ref 2, Closer.ref 1] ∧
      (closeLoop bothFailResult [Closer.ref 2, Closer.ref 1] [] []
          = some (([Closer.ref 2, Closer.ref 1].map bothFailResult).reduceOption,
              [Closer.ref 2, Closer.ref 1]) ∧
        ∃ r, Close sampleTwo [Closer.ref 2, Closer.ref 1] bothFailResult 50 = some r ∧
          r.calls = [Closer.ref 2, Closer.ref 1] ∧
          (([Closer.ref 2, Closer.ref 1].map bothFailResult).reduceOption = [] →
            r.err = none) ∧
          (([Closer.ref 2, Closer.ref 1].map bothFailResult).reduceOption ≠ [] →
            r.err = some (GoError.joined 50
              ([Closer.ref 2, Closer.ref 1].map bothFailResult).reduceOption)) ∧
          ([Closer.ref 2, Closer.ref 1].map bothFailResult).reduceOption.length
            = ([Closer.ref 2, Closer.ref 1].filter
                (fun c => (bothFailResult c).isSome)).length) :=
  ⟨reachable_sampleTwo, by decide, by decide,
    Close_collects_in_visiting_order sampleTwo [Closer.ref 2, Closer.ref 1] bothFailResult 50
      reachable_sampleTwo (by decide) (by decide)⟩

/-! ## Operations that cannot fail, and the zero value -/

/-- C15 fails as stated: on the registry from New, Register of a non-nil closer whose
dynamic type is unhashable panics, although the map is allocated. -/
theorem Register_unhashable_panics :
    Reachable New ∧ New.closers ≠ none ∧
      RegisterAny New (CloserValue.unhashable 1) = none :=
  ⟨Reachable.new, by decide, rfl⟩

/-- C15 (amended): every registry reachable from New through Register, Unregister and
Close holds an allocated (non-nil) map without the nil key, so Register never hits the
assignment into a nil map. On such a registry Register and Unregister return for every
handle of the data model, giving reachable registries again, and Len returns; Register
and Unregister panic only for a closer of unhashable dynamic type. -/
theorem reachable_ops_fail_only_on_unhashable (m : MultiCloser) (hr : Reachable m) :
    m.closers ≠ none ∧ Closer.nil ∉ keys m ∧
      (∀ c, (∃ m1, RegisterAny m (CloserValue.handle c) = some m1 ∧ Reachable m1) ∧
        UnregisterAny m (CloserValue.handle c) = some (Unregister m c) ∧
        Reachable (Unregister m c) ∧ Len (Unregister m c) ≤ Len m) ∧
      (∀ v, RegisterAny m v = none ∨ UnregisterAny m v = none →
        ∃ k, v = CloserValue.unhashable k) ∧
      ∀ k, RegisterAny m (CloserValue.unhashable k) = none ∧
        UnregisterAny m (CloserValue.unhashable k) = none := by
  have hw := reachable_wellFormed m hr
  obtain ⟨s, hs, hnil⟩ := hw
  have hreg : ∀ c, ∃ m1, Register m c = some m1 ∧ Reachable m1 := by
    intro c
    obtain ⟨m1, hreg, _, _⟩ := Register_isSome m c ⟨s, hs, hnil⟩
    exact ⟨m1, hreg, Reachable.register m m1 c hr hreg⟩
  refine ⟨by simp [hs], by simpa [keys, hs] using hnil, ?_, ?_, fun _ => ⟨rfl, rfl⟩⟩
  · intro c
    refine ⟨hreg c, rfl, Reachable.unregister m c hr, ?_⟩
    rw [Len_eq_card_keys, Len_eq_card_keys, keys_Unregister]
    exact Finset.card_erase_le
  · intro v hv
    cases v with
    | unhashable k => exact ⟨k, rfl⟩
    | handle c =>
      obtain ⟨m1, h1, _⟩ := hreg c
      rcases hv with hv | hv
      · simp [RegisterAny, h1] at hv
      · simp [UnregisterAny] at hv

theorem reachable_ops_fail_only_on_unhashable_witness :
    Reachable sampleTwo ∧
      (sampleTwo.closers ≠ none ∧ Closer.nil ∉ keys sampleTwo ∧
        (∀ c, (∃ m1, RegisterAny sampleTwo (CloserValue.handle c) = some m1 ∧
            Reachable m1) ∧
          UnregisterAny sampleTwo (CloserValue.handle c) = some (Unregister sampleTwo c) ∧
          Reachable (Unregister sampleTwo c) ∧
          Len (Unregister sampleTwo c) ≤ Len sampleTwo) ∧
        (∀ v, RegisterAny sampleTwo v = none ∨ UnregisterAny sampleTwo v = none →
          ∃ k, v = CloserValue.unhashable k) ∧
        ∀ k, RegisterAny sampleTwo (CloserValue.unhashable k) = none ∧
          UnregisterAny sampleTwo (CloserValue.unhashable k) = none) :=
  ⟨reachable_sampleTwo, reachable_ops_fail_only_on_unhashable sampleTwo reachable_sampleTwo⟩

/-- C18: on a zero-valued MultiCloser, whose map is nil, Register of any non-nil handle
panics (the assignment into the nil map) instead of adding the handle. -/
theorem Register_zeroValue_panics (h : Closer) (hh : h ≠ Closer.nil) :
    Register zeroValue h = none := by
  simp [Register, zeroValue, hh]

theorem Register_zeroValue_panics_witness :
    Closer.ref 1 ≠ Closer.nil ∧ Register zeroValue (Closer.ref 1) = none :=
  ⟨by decide, Register_zeroValue_panics (Closer.ref 1) (by decide)⟩

/-- C19: on a registry whose map is allocated, Register of a non-nil handle h that is
not registered, followed by Unregister of h, gives back the original registry; and on a
registry from New, Register h, Unregister h, Close returns ErrNoCloserRegistered without
invoking any Close, that of h included. -/
theorem Register_then_Unregister (m : MultiCloser) (h : Closer) (halloc : m.closers ≠ none)
    (hh : h ≠ Closer.nil) (hnot : h ∉ keys m) :
    (∃ m1, Register m h = some m1 ∧ h ∈ keys m1 ∧ Unregister m1 h = m) ∧
      ∀ (order : List Closer) (result : Closer → Option GoError) (fresh : Nat),
        ∃ a1, Register New h = some a1 ∧ h ∈ keys a1 ∧
          Close (Unregister a1 h) order result fresh
            = some { m := New, err := some ErrNoCloserRegistered, calls := [] } := by
  have hgen : ∀ (s : Finset Closer), h ∉ s →
      Register { closers := some s } h = some { closers := some (insert h s) } ∧
        h ∈ keys { closers := some (insert h s) } ∧
        Unregister { closers := some (insert h s) } h = { closers := some s } := by
    intro s hs
    refine ⟨by simp [Register, hh], by simp [keys], ?_⟩
    simp [Unregister, Finset.erase_insert hs]
  constructor
  · cases m with
    | mk closers =>
      cases closers with
      | none => exact absurd rfl halloc
      | some s =>
        have hs : h ∉ s := hnot
        exact ⟨_, hgen s hs⟩
  · intro order result fresh
    obtain ⟨h1, h2, h3⟩ := hgen ∅ (Finset.not_mem_empty h)
    refine ⟨_, h1, h2, ?_⟩
    rw [h3]
    exact Close_on_empty_state New order result fresh rfl

theorem Register_then_Unregister_witness :
    sampleOne.closers ≠ none ∧ Closer.ref 2 ≠ Closer.nil ∧ Closer.ref 2 ∉ keys sampleOne ∧
      ((∃ m1, Register sampleOne (Closer.ref 2) = some m1 ∧ Closer.ref 2 ∈ keys m1 ∧
          Unregister m1 (Closer.ref 2) = sampleOne) ∧
        ∀ (order : List Closer) (result : Closer → Option GoError) (fresh : Nat),
          ∃ a1, Register New (Closer.ref 2) = some a1 ∧ Closer.ref 2 ∈ keys a1 ∧
            Close (Unregister a1 (Closer.ref 2)) order result fresh
              = some { m := New, err := some ErrNoCloserRegistered, calls := [] }) :=
  ⟨by decide, by decide, by decide,
    Register_then_Unregister sampleOne (Closer.ref 2) (by decide) (by decide) (by decide)⟩

/-- C20: Register and Unregister touch only the handle they are given: for every registry
and handles h and d with d different from h, whenever Register of h returns, d is
registered afterwards exactly when it was before, Register of h does return when the map
is allocated, and d is registered after Unregister of h exactly when it was before. -/
theorem Register_Unregister_frame (m : MultiCloser) (h d : Closer) (hd : d ≠ h) :
    (∀ m1, Register m h = some m1 → (d ∈ keys m1 ↔ d ∈ keys m)) ∧
      (m.closers ≠ none → ∃ m1, Register m h = some m1) ∧
      (d ∈ keys (Unregister m h) ↔ d ∈ keys m) := by
  refine ⟨?_, ?_, ?_⟩
  · intro m1 hreg
    unfold Register at hreg
    by_cases hh : h = Closer.nil
    · simp [hh] at hreg
      rw [← hreg]
    · cases m with
      | mk closers =>
        cases closers with
        | none => simp [hh] at hreg
        | some s =>
          simp [hh] at hreg
          rw [← hreg]
          simp [keys, hd]
  · intro halloc
    cases m with
    | mk closers =>
      cases closers with
      | none => exact absurd rfl halloc
      | some s =>
        by_cases hh : h = Closer.nil
        · exact ⟨{ closers := some s }, by simp [Register, hh]⟩
        · exact ⟨{ closers := some (insert h s) }, by simp [Register, hh]⟩
  · rw [keys_Unregister, Finset.mem_erase]
    exact ⟨fun hh => hh.2, fun hh => ⟨hd, hh⟩⟩

theorem Register_Unregister_frame_witness :
    Closer.ref 1 ≠ Closer.ref 2 ∧
      ((∀ m1, Register sampleTwo (Closer.ref 2) = some m1 →
          (Closer.ref 1 ∈ keys m1 ↔ Closer.ref 1 ∈ keys sampleTwo)) ∧
        (sampleTwo.closers ≠ none → ∃ m1, Register sampleTwo (Closer.ref 2) = some m1) ∧
        (Closer.ref 1 ∈ keys (Unregister sampleTwo (Closer.ref 2)) ↔
          Closer.ref 1 ∈ keys sampleTwo)) :=
  ⟨by decide, Register_Unregister_frame sampleTwo (Closer.ref 2) (Closer.ref 1) (by decide)⟩

end multicloser
